import Mathlib

/-!
Shallow embedding of the Turing-machine simulator in `src/turing.rs`.

Conventions of the embedding:
* `u8` tape entries and `usize` indices become `Nat`; the `u128` step and
  tally counters increment modulo `2 ^ 128` exactly where the Rust `+= 1`
  operates on `u128`.
* The global `STATES_LOCK` intern table is threaded explicitly as a
  `List String` argument and result.
* Rust panics are modelled as an explicit `panic`/`none` outcome carrying
  only the panic message (no machine state escapes a panic).
* `VecDeque<u8>` becomes `List Nat`; `push_front` is `cons`, `push_back`
  is `· ++ [·]`; indexing `tape[pos]` becomes `List.getD`/`List.set`
  (the in-bounds invariant is proved separately, so the default branch of
  `getD` and the out-of-range no-op of `set` are never exercised on
  reachable machines).
-/

namespace Touring

/-- `type TapeEntry = u8` -/
abbrev TapeEntry := Nat

/-- `static DEFAULT_ENTRY: TapeEntry = 0` -/
def DEFAULT_ENTRY : TapeEntry := 0

/-- `enum Direction { Left, Right }` -/
inductive Direction where
  | Left : Direction
  | Right : Direction
deriving DecidableEq, Repr

/-- `struct Instruction` from `turing.rs`. -/
structure Instruction where
  state : Nat
  entry : TapeEntry
  new_state : Option Nat
  new_entry : TapeEntry
  direction : Direction
deriving DecidableEq, Repr

/-- `struct TuringMachine` from `turing.rs`; `num_steps` is a `u128`. -/
structure TuringMachine where
  state : Option Nat
  instructions : List Instruction
  tape : List TapeEntry
  pos : Nat
  offset : Nat
  num_steps : Nat
deriving DecidableEq, Repr

/-- Accumulating worker for `splitWhitespace`: `acc` holds the current
token's characters in reverse. -/
def splitWSAux : List Char → List Char → List String
  | [], acc => if acc.isEmpty then [] else [String.mk acc.reverse]
  | c :: rest, acc =>
    if c.isWhitespace then
      if acc.isEmpty then splitWSAux rest []
      else String.mk acc.reverse :: splitWSAux rest []
    else splitWSAux rest (c :: acc)

/-- Rust `str::split_whitespace`: maximal runs of non-whitespace
characters, with no empty tokens. -/
def splitWhitespace (s : String) : List String :=
  splitWSAux s.toList []

/-- Rust `str::parse::<u8>()`: optional leading `+`, then one or more ASCII
digits, value below 256. Returns `none` on any parse failure. -/
def parseU8 (s : String) : Option Nat :=
  let t := match s.toList with
    | '+' :: rest => rest
    | cs => cs
  if t.isEmpty then none
  else if t.all Char.isDigit then
    let n := t.foldl (fun acc c => acc * 10 + (c.toNat - 48)) 0
    if n < 256 then some n else none
  else none

/-- Result of `Instruction::try_from(&str)`. The Rust function returns
`Result<Instruction, InstructionParseError>` but can also panic (on a bad
direction token); each outcome carries the intern table as left behind by
the call, except the panic, which carries only the panic message. -/
inductive TryFromResult where
  | ok (i : Instruction) (states : List String) : TryFromResult
  | emptyLine (states : List String) : TryFromResult
  | parseError (why : String) (states : List String) : TryFromResult
  | panic (msg : String) : TryFromResult
deriving DecidableEq, Repr

/-- Interning against the `STATES_LOCK` table: reuse the index of an
existing name, else push the name and use the new last index. -/
def internState (states : List String) (name : String) : Nat × List String :=
  match states.findIdx? (fun st => st = name) with
  | some i => (i, states)
  | none => (states.length, states ++ [name])

/-- `Instruction::try_from` (`turing.rs` lines 53-129): reject empty lines,
split on whitespace, require six fields, intern source and target states
(target `Halt` means `None`), parse the two symbol fields as `u8`, accept
direction `L` or `R` and panic on anything else. -/
def Instruction.tryFrom (line : String) (states : List String) : TryFromResult :=
  if line.toList.isEmpty then .emptyLine states
  else
    let fields := splitWhitespace line
    if fields.length ≠ 6 then
      .parseError
        ("Invalid number of elements (found " ++ toString fields.length ++ ", expected 6)")
        states
    else
      let p0 := internState states (fields.getD 0 "")
      let source_state := p0.1
      let states1 := p0.2
      let target := fields.getD 3 ""
      let pt : Option Nat × List String :=
        if target = "Halt" then (none, states1)
        else
          let p3 := internState states1 target
          (some p3.1, p3.2)
      let target_state := pt.1
      let states2 := pt.2
      match parseU8 (fields.getD 1 "") with
      | none => .parseError "unable to parse source entry" states2
      | some source_entry =>
        match parseU8 (fields.getD 4 "") with
        | none => .parseError "unable to parse target entry" states2
        | some target_entry =>
          if fields.getD 5 "" = "L" then
            .ok ⟨source_state, source_entry, target_state, target_entry, .Left⟩ states2
          else if fields.getD 5 "" = "R" then
            .ok ⟨source_state, source_entry, target_state, target_entry, .Right⟩ states2
          else .panic ("couldn't parse direction '" ++ fields.getD 5 "" ++ "'")

/-- Result of `TuringMachine::new`: either the constructed machine together
with the final intern table, or a panic message (the Rust code panics on
every parse error). -/
inductive ConstructResult where
  | ok (m : TuringMachine) (states : List String) : ConstructResult
  | panic (msg : String) : ConstructResult
deriving DecidableEq, Repr

/-- The line loop of `TuringMachine::new` (`turing.rs` lines 156-173):
push each parsed instruction, skip empty lines, panic with the offending
line and reason on a parse error, and propagate panics raised inside
`Instruction::try_from`. When the lines are exhausted the machine starts
in state `Some(0)` with the one-cell default tape. -/
def newGo : List String → List Instruction → List String → ConstructResult
  | [], acc, states => .ok ⟨some 0, acc, [DEFAULT_ENTRY], 0, 0, 0⟩ states
  | line :: rest, acc, states =>
    match Instruction.tryFrom line states with
    | .ok i states2 => newGo rest (acc ++ [i]) states2
    | .emptyLine states2 => newGo rest acc states2
    | .parseError why _ =>
      .panic ("Can't read instruction from line '" ++ line ++ "': " ++ why)
    | .panic msg => .panic msg

/-- `TuringMachine::new` on the contents of the instruction file, given as
its list of lines (file I/O itself stays outside the model). -/
def TuringMachine.new (lines : List String) : ConstructResult :=
  newGo lines [] []

/-- `TuringMachine::extend_left` (`turing.rs` lines 220-224). -/
def TuringMachine.extend_left (m : TuringMachine) : TuringMachine :=
  { m with tape := DEFAULT_ENTRY :: m.tape, pos := m.pos + 1, offset := m.offset + 1 }

/-- `TuringMachine::extend_right` (`turing.rs` lines 226-228). -/
def TuringMachine.extend_right (m : TuringMachine) : TuringMachine :=
  { m with tape := m.tape ++ [DEFAULT_ENTRY] }

/-- The linear scan of `step` over the instruction table: the first
instruction whose `(state, entry)` pair matches, if any. -/
def findInstruction : List Instruction → Nat → TapeEntry → Option Instruction
  | [], _, _ => none
  | i :: rest, s, e =>
    if i.state = s ∧ i.entry = e then some i else findInstruction rest s e

/-- The matched-instruction body of `step` (`turing.rs` lines 185-202):
set the new state, write the new entry, then move the head, growing the
tape by one default cell when the move leaves the current extent. -/
def applyInstruction (m : TuringMachine) (i : Instruction) : TuringMachine :=
  let m1 := { m with state := i.new_state, tape := m.tape.set m.pos i.new_entry }
  match i.direction with
  | .Left =>
    let m2 := if m1.pos = 0 then m1.extend_left else m1
    { m2 with pos := m2.pos - 1 }
  | .Right =>
    let m2 := { m1 with pos := m1.pos + 1 }
    if m2.pos = m2.tape.length then m2.extend_right else m2

/-- `TuringMachine::step` (`turing.rs` lines 178-218). The Rust function
returns `bool` but panics when no instruction matches; `none` models that
panic (the panic carries no machine state to the caller), and
`some (b, m)` models a normal return of `b` with the machine mutated in
place to `m`. `num_steps` is incremented (as a `u128`) before the lookup. -/
def TuringMachine.step (m : TuringMachine) : Option (Bool × TuringMachine) :=
  match m.state with
  | none => some (false, m)
  | some s =>
    let m1 := { m with num_steps := (m.num_steps + 1) % 2 ^ 128 }
    match findInstruction m1.instructions s (m1.tape.getD m1.pos DEFAULT_ENTRY) with
    | some i => some (true, applyInstruction m1 i)
    | none => none

/-- The tally loop of `eval_busy_bever`: both counters are `u128`. -/
def evalGo : List TapeEntry → Nat → Nat → Nat × Nat
  | [], ones, zeros => (ones, zeros)
  | e :: rest, ones, zeros =>
    if e = 1 then evalGo rest ((ones + 1) % 2 ^ 128) zeros
    else if e = 0 then evalGo rest ones ((zeros + 1) % 2 ^ 128)
    else evalGo rest ones zeros

/-- `TuringMachine::eval_busy_bever` (`turing.rs` lines 300-317): a
read-only (`&self`) scan returning `(ones, zeros, num_steps)`. -/
def TuringMachine.eval_busy_bever (m : TuringMachine) : Nat × Nat × Nat :=
  let oz := evalGo m.tape 0 0
  (oz.1, oz.2, m.num_steps)

/-- Naive substring containment on strings, used to state whether a panic
message mentions the offending line. -/
def strContains (s sub : String) : Bool :=
  (List.range (s.toList.length + 1)).any
    (fun k => (s.toList.drop k).take sub.toList.length = sub.toList)

/-- Machines reachable from `m0` through successful (non-panicking) calls
to `step`. -/
inductive Reachable (m0 : TuringMachine) : TuringMachine → Prop where
  | refl : Reachable m0 m0
  | next : ∀ {m b m'}, Reachable m0 m → m.step = some (b, m') → Reachable m0 m'

/-- The sole instruction `(A, 0) -> (Halt, 1, R)` of the busy-beaver-1
scenario, as parsed from the line `A 0 x Halt 1 R`. -/
def instrA : Instruction := ⟨0, 0, none, 1, .Right⟩

/-- The machine `TuringMachine::new` builds from `["A 0 x Halt 1 R"]`. -/
def machineA : TuringMachine := ⟨some 0, [instrA], [DEFAULT_ENTRY], 0, 0, 0⟩

/-- `machineA` after its single step: halted, tape `[1, 0]`, head at 1. -/
def machineA1 : TuringMachine := ⟨none, [instrA], [1, 0], 1, 0, 1⟩

/-- The machine built from two instructions that share the source pair
`(A, 0)`: `A 0 x B 1 R` followed by `A 0 x Halt 0 L`. -/
def dupMachine : TuringMachine :=
  ⟨some 0, [⟨0, 0, some 1, 1, .Right⟩, ⟨0, 0, none, 0, .Left⟩], [DEFAULT_ENTRY], 0, 0, 0⟩

/-- The machine built from the single line `A 0 x B 1 R` after one step:
it is in state `B` (index 1) reading a `0`, for which no instruction
exists. -/
def stuckMachine : TuringMachine := ⟨some 1, [⟨0, 0, some 1, 1, .Right⟩], [1, 0], 1, 0, 1⟩

/-- A halted machine whose tape holds a symbol that is neither 0 nor 1,
used to exercise the tally and the halted no-op. -/
def haltedMachine : TuringMachine := ⟨none, [instrA], [1, 0, 2], 1, 0, 5⟩

end Touring

namespace Touring

/-! ## Basic lemmas about `step` and `applyInstruction` -/

theorem step_eq_halted (m : TuringMachine) (hs : m.state = none) :
    m.step = some (false, m) := by
  unfold TuringMachine.step
  rw [hs]

theorem step_eq_of_find (m : TuringMachine) (s : Nat) (i : Instruction)
    (hs : m.state = some s)
    (hf : findInstruction m.instructions s (m.tape.getD m.pos DEFAULT_ENTRY) = some i) :
    m.step =
      some (true, applyInstruction { m with num_steps := (m.num_steps + 1) % 2 ^ 128 } i) := by
  unfold TuringMachine.step
  rw [hs]
  simp only [hf]

theorem step_eq_none_of_nofind (m : TuringMachine) (s : Nat)
    (hs : m.state = some s)
    (hf : findInstruction m.instructions s (m.tape.getD m.pos DEFAULT_ENTRY) = none) :
    m.step = none := by
  unfold TuringMachine.step
  rw [hs]
  simp only [hf]

theorem applyInstruction_left_zero (m : TuringMachine) (i : Instruction)
    (hd : i.direction = .Left) (hp : m.pos = 0) :
    applyInstruction m i =
      ⟨i.new_state, m.instructions, DEFAULT_ENTRY :: m.tape.set m.pos i.new_entry, 0,
        m.offset + 1, m.num_steps⟩ := by
  simp [applyInstruction, hd, hp, TuringMachine.extend_left]

theorem applyInstruction_left_pos (m : TuringMachine) (i : Instruction)
    (hd : i.direction = .Left) (hp : m.pos ≠ 0) :
    applyInstruction m i =
      ⟨i.new_state, m.instructions, m.tape.set m.pos i.new_entry, m.pos - 1,
        m.offset, m.num_steps⟩ := by
  simp [applyInstruction, hd, hp]

theorem applyInstruction_right_grow (m : TuringMachine) (i : Instruction)
    (hd : i.direction = .Right) (hp : m.pos + 1 = m.tape.length) :
    applyInstruction m i =
      ⟨i.new_state, m.instructions, m.tape.set m.pos i.new_entry ++ [DEFAULT_ENTRY],
        m.pos + 1, m.offset, m.num_steps⟩ := by
  simp [applyInstruction, hd, TuringMachine.extend_right, hp]

theorem applyInstruction_right_nogrow (m : TuringMachine) (i : Instruction)
    (hd : i.direction = .Right) (hp : m.pos + 1 ≠ m.tape.length) :
    applyInstruction m i =
      ⟨i.new_state, m.instructions, m.tape.set m.pos i.new_entry, m.pos + 1,
        m.offset, m.num_steps⟩ := by
  simp [applyInstruction, hd, hp]

end Touring

namespace Touring

/-! ## Claim theorems -/

/-- C3: for every machine whose `current_state` is `None`, `step()` returns
`false` and leaves the machine — tape, head position, offset, step count
and control state — exactly as it was, so repeated calls behave
identically. -/
theorem step_after_halt_noop (m : TuringMachine) (h : m.state = none) :
    m.step = some (false, m) :=
  step_eq_halted m h

theorem step_after_halt_noop_witness :
    haltedMachine.step = some (false, haltedMachine) :=
  step_after_halt_noop haltedMachine rfl

/-- C2 counterexample: `stuckMachine` is running (state `B`, index 1) and
no instruction matches `(1, 0)`, yet `step` produces no result value at
all — `none` models the Rust `panic!("No Instruction matched
Turing-Machine")` — so the caller receives no explicit error value from
which tape, state or step count could be inspected; the claimed
error-result reporting does not exist in the code. -/
theorem step_undefined_no_error_value :
    stuckMachine.state = some 1 ∧
    findInstruction stuckMachine.instructions 1
      (stuckMachine.tape.getD stuckMachine.pos DEFAULT_ENTRY) = none ∧
    stuckMachine.step = none :=
  ⟨rfl, rfl, rfl⟩

/-- C2 (amended): when `step()` is called on a running machine and no
instruction matches the current `(state, symbol)` pair, the code panics —
an uncontrolled abort, modelled as `none` — which is distinguishable from
normal halting (`some (false, ·)`) but returns no error value and leaves
the caller nothing to inspect. -/
theorem step_undefined_panics (m : TuringMachine) (s : Nat)
    (hs : m.state = some s)
    (hf : findInstruction m.instructions s (m.tape.getD m.pos DEFAULT_ENTRY) = none) :
    m.step = none :=
  step_eq_none_of_nofind m s hs hf

theorem step_undefined_panics_witness : stuckMachine.step = none :=
  step_undefined_panics stuckMachine 1 rfl rfl

/-- C5 counterexample: building a machine from two records that share the
source pair `(A, 0)` succeeds — `TuringMachine::new` performs no duplicate
detection and reports no `DuplicateTransition` error (no such error exists
in the code). -/
theorem duplicate_construction_succeeds :
    TuringMachine.new ["A 0 x B 1 R", "A 0 x Halt 0 L"] = .ok dupMachine ["A", "B"] :=
  rfl

/-- C5 (amended): construction from a record sequence in which two
instructions share the same `(source_state, read_symbol)` pair silently
succeeds, storing both instructions in declaration order, and `step()`
uses the first of them (here the `B 1 R` instruction, not the halting
one). -/
theorem duplicate_table_first_wins :
    TuringMachine.new ["A 0 x B 1 R", "A 0 x Halt 0 L"] = .ok dupMachine ["A", "B"] ∧
    dupMachine.instructions = [⟨0, 0, some 1, 1, .Right⟩, ⟨0, 0, none, 0, .Left⟩] ∧
    dupMachine.step = some (true, ⟨some 1, dupMachine.instructions, [1, 0], 1, 0, 1⟩) :=
  ⟨rfl, rfl, rfl⟩

/-- C8: the machine built from the single line `A 0 x Halt 1 R` starts in
the first declared state with the one-cell default tape; one call to
`step()` returns `true` and halts it, the next call returns `false`, the
final tape is `[1, 0]`, and the tally is 1 one, 1 zero after 1 step. -/
theorem busy_beaver_one_step :
    TuringMachine.new ["A 0 x Halt 1 R"] = .ok machineA ["A"] ∧
    machineA.step = some (true, machineA1) ∧
    machineA1.step = some (false, machineA1) ∧
    machineA1.tape = [1, 0] ∧
    machineA1.eval_busy_bever = (1, 1, 1) :=
  ⟨rfl, rfl, rfl, rfl, rfl⟩

end Touring

namespace Touring

theorem applyInstruction_state (m : TuringMachine) (i : Instruction) :
    (applyInstruction m i).state = i.new_state := by
  rcases hd : i.direction with _ | _
  · by_cases hp : m.pos = 0
    · rw [applyInstruction_left_zero m i hd hp]
    · rw [applyInstruction_left_pos m i hd hp]
  · by_cases hp : m.pos + 1 = m.tape.length
    · rw [applyInstruction_right_grow m i hd hp]
    · rw [applyInstruction_right_nogrow m i hd hp]

theorem applyInstruction_num_steps (m : TuringMachine) (i : Instruction) :
    (applyInstruction m i).num_steps = m.num_steps := by
  rcases hd : i.direction with _ | _
  · by_cases hp : m.pos = 0
    · rw [applyInstruction_left_zero m i hd hp]
    · rw [applyInstruction_left_pos m i hd hp]
  · by_cases hp : m.pos + 1 = m.tape.length
    · rw [applyInstruction_right_grow m i hd hp]
    · rw [applyInstruction_right_nogrow m i hd hp]

theorem applyInstruction_cases (m : TuringMachine) (i : Instruction) :
    (applyInstruction m i).tape.length ≤ m.tape.length + 1 ∧
    ((i.direction = .Left ∧ m.pos = 0 ∧
        (applyInstruction m i).tape = DEFAULT_ENTRY :: m.tape.set m.pos i.new_entry ∧
        (applyInstruction m i).pos = 0 ∧ (applyInstruction m i).offset = m.offset + 1) ∨
     (i.direction = .Left ∧ m.pos ≠ 0 ∧
        (applyInstruction m i).tape = m.tape.set m.pos i.new_entry ∧
        (applyInstruction m i).pos = m.pos - 1 ∧ (applyInstruction m i).offset = m.offset) ∨
     (i.direction = .Right ∧ m.pos + 1 = m.tape.length ∧
        (applyInstruction m i).tape = m.tape.set m.pos i.new_entry ++ [DEFAULT_ENTRY] ∧
        (applyInstruction m i).pos = m.pos + 1 ∧ (applyInstruction m i).offset = m.offset) ∨
     (i.direction = .Right ∧ m.pos + 1 ≠ m.tape.length ∧
        (applyInstruction m i).tape = m.tape.set m.pos i.new_entry ∧
        (applyInstruction m i).pos = m.pos + 1 ∧ (applyInstruction m i).offset = m.offset)) := by
  rcases hd : i.direction with _ | _
  · by_cases hp : m.pos = 0
    · rw [applyInstruction_left_zero m i hd hp]
      exact ⟨by simp, Or.inl ⟨rfl, hp, rfl, rfl, rfl⟩⟩
    · rw [applyInstruction_left_pos m i hd hp]
      exact ⟨by simp, Or.inr (Or.inl ⟨rfl, hp, rfl, rfl, rfl⟩)⟩
  · by_cases hp : m.pos + 1 = m.tape.length
    · rw [applyInstruction_right_grow m i hd hp]
      exact ⟨by simp, Or.inr (Or.inr (Or.inl ⟨rfl, hp, rfl, rfl, rfl⟩))⟩
    · rw [applyInstruction_right_nogrow m i hd hp]
      exact ⟨by simp, Or.inr (Or.inr (Or.inr ⟨rfl, hp, rfl, rfl, rfl⟩))⟩

/-- C1: on a running machine whose table has a matching instruction, any
value returned by `step()` is `true` (even when the target is the halt
marker `none`), the write symbol is written at the head position, the
control state becomes the instruction's target, and the head moves with at
most one default-symbol cell of growth at the relevant edge: on `Left`
from position 0 the tape grows by one cell on the left (offset + 1) and
the head ends at 0; on `Left` otherwise the head just moves down one; on
`Right` the head moves up one, appending one default cell exactly when it
reaches the old tape length. -/
theorem step_matched_spec (m : TuringMachine) (s : Nat) (i : Instruction)
    (b : Bool) (m' : TuringMachine)
    (hs : m.state = some s)
    (hf : findInstruction m.instructions s (m.tape.getD m.pos DEFAULT_ENTRY) = some i)
    (hstep : m.step = some (b, m')) :
    b = true ∧
    m'.state = i.new_state ∧
    m'.tape.length ≤ m.tape.length + 1 ∧
    ((i.direction = .Left ∧ m.pos = 0 ∧
        m'.tape = DEFAULT_ENTRY :: m.tape.set m.pos i.new_entry ∧
        m'.pos = 0 ∧ m'.offset = m.offset + 1) ∨
     (i.direction = .Left ∧ m.pos ≠ 0 ∧
        m'.tape = m.tape.set m.pos i.new_entry ∧
        m'.pos = m.pos - 1 ∧ m'.offset = m.offset) ∨
     (i.direction = .Right ∧ m.pos + 1 = m.tape.length ∧
        m'.tape = m.tape.set m.pos i.new_entry ++ [DEFAULT_ENTRY] ∧
        m'.pos = m.pos + 1 ∧ m'.offset = m.offset) ∨
     (i.direction = .Right ∧ m.pos + 1 ≠ m.tape.length ∧
        m'.tape = m.tape.set m.pos i.new_entry ∧
        m'.pos = m.pos + 1 ∧ m'.offset = m.offset)) := by
  have hst := step_eq_of_find m s i hs hf
  rw [hst] at hstep
  simp only [Option.some.injEq, Prod.mk.injEq] at hstep
  obtain ⟨hb, hm⟩ := hstep
  subst hm
  exact ⟨hb.symm, applyInstruction_state _ i,
    applyInstruction_cases { m with num_steps := (m.num_steps + 1) % 2 ^ 128 } i⟩

theorem step_matched_spec_witness :
    true = true ∧
    machineA1.state = instrA.new_state ∧
    machineA1.tape.length ≤ machineA.tape.length + 1 ∧
    ((instrA.direction = .Left ∧ machineA.pos = 0 ∧
        machineA1.tape = DEFAULT_ENTRY :: machineA.tape.set machineA.pos instrA.new_entry ∧
        machineA1.pos = 0 ∧ machineA1.offset = machineA.offset + 1) ∨
     (instrA.direction = .Left ∧ machineA.pos ≠ 0 ∧
        machineA1.tape = machineA.tape.set machineA.pos instrA.new_entry ∧
        machineA1.pos = machineA.pos - 1 ∧ machineA1.offset = machineA.offset) ∨
     (instrA.direction = .Right ∧ machineA.pos + 1 = machineA.tape.length ∧
        machineA1.tape = machineA.tape.set machineA.pos instrA.new_entry ++ [DEFAULT_ENTRY] ∧
        machineA1.pos = machineA.pos + 1 ∧ machineA1.offset = machineA.offset) ∨
     (instrA.direction = .Right ∧ machineA.pos + 1 ≠ machineA.tape.length ∧
        machineA1.tape = machineA.tape.set machineA.pos instrA.new_entry ∧
        machineA1.pos = machineA.pos + 1 ∧ machineA1.offset = machineA.offset)) :=
  step_matched_spec machineA 0 instrA true machineA1 rfl rfl rfl

theorem findInstruction_first (pre post : List Instruction) (i : Instruction)
    (s : Nat) (e : TapeEntry)
    (him : i.state = s ∧ i.entry = e)
    (hpre : ∀ j ∈ pre, ¬(j.state = s ∧ j.entry = e)) :
    findInstruction (pre ++ i :: post) s e = some i := by
  induction pre with
  | nil => simp [findInstruction, him]
  | cons j rest ih =>
    have hj := hpre j (List.mem_cons_self j rest)
    simp only [List.cons_append, findInstruction, if_neg hj]
    exact ih (fun k hk => hpre k (List.mem_cons_of_mem j hk))

/-- C6: when several instructions share the same `(source_state,
read_symbol)` pair, `step()` applies the first matching instruction in
declaration order — the linear scan returns on the first match, so the
later duplicates are never executed. -/
theorem step_first_match_wins (m : TuringMachine) (s : Nat)
    (pre post : List Instruction) (i : Instruction)
    (hs : m.state = some s)
    (hi : m.instructions = pre ++ i :: post)
    (him : i.state = s ∧ i.entry = m.tape.getD m.pos DEFAULT_ENTRY)
    (hpre : ∀ j ∈ pre, ¬(j.state = s ∧ j.entry = m.tape.getD m.pos DEFAULT_ENTRY)) :
    m.step =
      some (true, applyInstruction { m with num_steps := (m.num_steps + 1) % 2 ^ 128 } i) := by
  apply step_eq_of_find m s i hs
  rw [hi]
  exact findInstruction_first pre post i s _ him hpre

theorem step_first_match_wins_witness :
    dupMachine.step =
      some (true,
        applyInstruction { dupMachine with num_steps := (dupMachine.num_steps + 1) % 2 ^ 128 }
          ⟨0, 0, some 1, 1, .Right⟩) :=
  step_first_match_wins dupMachine 0 [] [⟨0, 0, none, 0, .Left⟩] ⟨0, 0, some 1, 1, .Right⟩
    rfl rfl ⟨rfl, rfl⟩ (by simp)

/-- C7: every call to `step()` that returns `true` increases `num_steps`
by exactly 1 (as a `u128`, so modulo `2 ^ 128`; exactly `+ 1` and
monotonically non-decreasing whenever the 128-bit counter has not yet
reached its maximum, which realistic run lengths never do), and every call
that returns `false` leaves `num_steps` unchanged. -/
theorem step_count_increment (m : TuringMachine) (b : Bool) (m' : TuringMachine)
    (h : m.step = some (b, m')) :
    (b = true → m'.num_steps = (m.num_steps + 1) % 2 ^ 128 ∧
      (m.num_steps + 1 < 2 ^ 128 →
        m'.num_steps = m.num_steps + 1 ∧ m.num_steps ≤ m'.num_steps)) ∧
    (b = false → m'.num_steps = m.num_steps) := by
  rcases hst : m.state with _ | s
  · rw [step_eq_halted m hst] at h
    simp only [Option.some.injEq, Prod.mk.injEq] at h
    obtain ⟨hb, hm⟩ := h
    subst hm
    constructor
    · intro ht; rw [← hb] at ht; cases ht
    · intro _; rfl
  · rcases hf : findInstruction m.instructions s (m.tape.getD m.pos DEFAULT_ENTRY) with _ | i
    · rw [step_eq_none_of_nofind m s hst hf] at h
      cases h
    · rw [step_eq_of_find m s i hst hf] at h
      simp only [Option.some.injEq, Prod.mk.injEq] at h
      obtain ⟨hb, hm⟩ := h
      subst hm
      constructor
      · intro _
        have hns : (applyInstruction { m with num_steps := (m.num_steps + 1) % 2 ^ 128 } i).num_steps
            = (m.num_steps + 1) % 2 ^ 128 := applyInstruction_num_steps _ i
        refine ⟨hns, fun hlt => ?_⟩
        rw [hns, Nat.mod_eq_of_lt hlt]
        exact ⟨rfl, Nat.le_succ _⟩
      · intro hfalse; rw [← hb] at hfalse; cases hfalse

theorem step_count_increment_witness :
    (true = true → machineA1.num_steps = (machineA.num_steps + 1) % 2 ^ 128 ∧
      (machineA.num_steps + 1 < 2 ^ 128 →
        machineA1.num_steps = machineA.num_steps + 1 ∧
        machineA.num_steps ≤ machineA1.num_steps)) ∧
    (true = false → machineA1.num_steps = machineA.num_steps) :=
  step_count_increment machineA true machineA1 rfl

end Touring

namespace Touring

theorem newGo_ok_shape (lines : List String) (acc : List Instruction) (states : List String)
    (m : TuringMachine) (st : List String) (h : newGo lines acc states = .ok m st) :
    m.pos = 0 ∧ m.tape = [DEFAULT_ENTRY] := by
  induction lines generalizing acc states with
  | nil =>
    simp only [newGo, ConstructResult.ok.injEq] at h
    obtain ⟨hm, -⟩ := h
    subst hm
    exact ⟨rfl, rfl⟩
  | cons line rest ih =>
    unfold newGo at h
    cases htf : Instruction.tryFrom line states with
    | ok i s2 => rw [htf] at h; exact ih _ _ h
    | emptyLine s2 => rw [htf] at h; exact ih _ _ h
    | parseError w s2 => rw [htf] at h; cases h
    | panic msg => rw [htf] at h; cases h

theorem step_preserves_bounds (m : TuringMachine) (b : Bool) (m' : TuringMachine)
    (h : m.step = some (b, m')) (hwf : m.pos < m.tape.length) :
    m'.pos < m'.tape.length := by
  rcases hst : m.state with _ | s
  · rw [step_eq_halted m hst] at h
    simp only [Option.some.injEq, Prod.mk.injEq] at h
    obtain ⟨-, hm⟩ := h
    subst hm
    exact hwf
  · rcases hf : findInstruction m.instructions s (m.tape.getD m.pos DEFAULT_ENTRY) with _ | i
    · rw [step_eq_none_of_nofind m s hst hf] at h
      cases h
    · rw [step_eq_of_find m s i hst hf] at h
      simp only [Option.some.injEq, Prod.mk.injEq] at h
      obtain ⟨-, hm⟩ := h
      subst hm
      obtain ⟨-, hcases⟩ :=
        applyInstruction_cases { m with num_steps := (m.num_steps + 1) % 2 ^ 128 } i
      rcases hcases with ⟨-, -, htape, hpos, -⟩ | ⟨-, hp, htape, hpos, -⟩ |
        ⟨-, -, htape, hpos, -⟩ | ⟨-, hp, htape, hpos, -⟩
      · rw [htape, hpos]
        simp
      · rw [htape, hpos]
        simp only [List.length_set]
        exact lt_of_le_of_lt (Nat.sub_le m.pos 1) hwf
      · rw [htape, hpos]
        simp only [List.length_append, List.length_set, List.length_cons, List.length_nil]
        exact Nat.succ_lt_succ hwf
      · rw [htape, hpos]
        simp only [List.length_set]
        exact lt_of_le_of_ne (Nat.succ_le_of_lt hwf) hp

/-- C4: from the initial configuration built by `TuringMachine::new`
(head at 0 on a one-cell tape), every machine reachable through calls to
`step()` keeps `head_position < tape length` (positions are `Nat`, so
`0 <= head_position` is inherent), so reading and writing the cell at the
head is always in bounds before and after every step. -/
theorem reachable_head_in_bounds (lines : List String) (m0 : TuringMachine)
    (st : List String) (hnew : TuringMachine.new lines = .ok m0 st)
    (m : TuringMachine) (h : Reachable m0 m) :
    m.pos < m.tape.length := by
  have h0 : m0.pos = 0 ∧ m0.tape = [DEFAULT_ENTRY] := newGo_ok_shape lines [] [] m0 st hnew
  have hwf0 : m0.pos < m0.tape.length := by
    rw [h0.1, h0.2]
    simp
  induction h with
  | refl => exact hwf0
  | next hr hs ih => exact step_preserves_bounds _ _ _ hs ih

theorem reachable_head_in_bounds_witness : machineA1.pos < machineA1.tape.length :=
  reachable_head_in_bounds ["A 0 x Halt 1 R"] machineA ["A"] rfl machineA1
    (@Reachable.next machineA machineA true machineA1 Reachable.refl rfl)

end Touring

namespace Touring

theorem evalGo_count (l : List TapeEntry) (ones zeros : Nat)
    (h1 : ones + l.count 1 < 2 ^ 128) (h0 : zeros + l.count 0 < 2 ^ 128) :
    evalGo l ones zeros = (ones + l.count 1, zeros + l.count 0) := by
  induction l generalizing ones zeros with
  | nil => simp [evalGo]
  | cons e rest ih =>
    by_cases he1 : e = 1
    · subst he1
      have hc1 : List.count 1 (1 :: rest) = List.count 1 rest + 1 := by
        simp [List.count_cons]
      have hc0 : List.count 0 (1 :: rest) = List.count 0 rest := by
        simp [List.count_cons]
      rw [hc1] at h1 ⊢
      rw [hc0] at h0 ⊢
      have hev : evalGo (1 :: rest) ones zeros = evalGo rest (ones + 1) zeros := by
        calc evalGo (1 :: rest) ones zeros
            = evalGo rest ((ones + 1) % 2 ^ 128) zeros := rfl
          _ = evalGo rest (ones + 1) zeros := by
              rw [Nat.mod_eq_of_lt (show ones + 1 < 2 ^ 128 by omega)]
      rw [hev, ih (ones + 1) zeros (by omega) h0]
      have harith : ones + 1 + List.count 1 rest = ones + (List.count 1 rest + 1) := by
        omega
      rw [harith]
    · by_cases he0 : e = 0
      · subst he0
        have hc1 : List.count 1 (0 :: rest) = List.count 1 rest := by
          simp [List.count_cons]
        have hc0 : List.count 0 (0 :: rest) = List.count 0 rest + 1 := by
          simp [List.count_cons]
        rw [hc1] at h1 ⊢
        rw [hc0] at h0 ⊢
        have hev : evalGo (0 :: rest) ones zeros = evalGo rest ones (zeros + 1) := by
          calc evalGo (0 :: rest) ones zeros
              = evalGo rest ones ((zeros + 1) % 2 ^ 128) := rfl
            _ = evalGo rest ones (zeros + 1) := by
                rw [Nat.mod_eq_of_lt (show zeros + 1 < 2 ^ 128 by omega)]
        rw [hev, ih ones (zeros + 1) h1 (by omega)]
        have harith : zeros + 1 + List.count 0 rest = zeros + (List.count 0 rest + 1) := by
          omega
        rw [harith]
      · have hc1 : List.count 1 (e :: rest) = List.count 1 rest := by
          simp [List.count_cons, he1]
        have hc0 : List.count 0 (e :: rest) = List.count 0 rest := by
          simp [List.count_cons, he0]
        rw [hc1] at h1 ⊢
        rw [hc0] at h0 ⊢
        have hev : evalGo (e :: rest) ones zeros = evalGo rest ones zeros := by
          simp [evalGo, he1, he0]
        rw [hev, ih ones zeros h1 h0]

theorem count_one_add_count_zero_le (l : List TapeEntry) :
    l.count 1 + l.count 0 ≤ l.length := by
  induction l with
  | nil => simp
  | cons e rest ih =>
    rw [List.count_cons, List.count_cons, List.length_cons]
    by_cases h1 : e = 1
    · subst h1
      simp only [beq_self_eq_true, if_pos]
      simp only [show ((1 : TapeEntry) == 0) = false by decide, Bool.false_eq_true,
        if_false]
      omega
    · by_cases h0 : e = 0
      · subst h0
        simp only [beq_self_eq_true, if_pos]
        simp only [show ((0 : TapeEntry) == 1) = false by decide, Bool.false_eq_true,
          if_false]
        omega
      · have hb1 : (e == 1) = false := by simp [h1]
        have hb0 : (e == 0) = false := by simp [h0]
        simp only [hb1, hb0, Bool.false_eq_true, if_false]
        omega

/-- C10: `eval_busy_bever` takes the machine by shared reference (`&self`,
modelled as a pure function) and returns exactly the triple (number of
tape cells equal to 1, number of tape cells equal to 0, current step
count); the two `u128` tallies count as `Nat` as long as each stays below
`2 ^ 128`, which any tape reachable in a real process satisfies. A cell
holding any other symbol value is counted in neither tally, so the two
counts need only sum to at most — not exactly — the tape length. -/
theorem eval_busy_bever_counts (m : TuringMachine)
    (h1 : m.tape.count 1 < 2 ^ 128) (h0 : m.tape.count 0 < 2 ^ 128) :
    m.eval_busy_bever = (m.tape.count 1, m.tape.count 0, m.num_steps) ∧
    m.tape.count 1 + m.tape.count 0 ≤ m.tape.length := by
  have he : evalGo m.tape 0 0 = (0 + m.tape.count 1, 0 + m.tape.count 0) :=
    evalGo_count m.tape 0 0 (by omega) (by omega)
  constructor
  · unfold TuringMachine.eval_busy_bever
    rw [he]
    simp
  · exact count_one_add_count_zero_le m.tape

theorem eval_busy_bever_counts_witness :
    haltedMachine.eval_busy_bever =
      (haltedMachine.tape.count 1, haltedMachine.tape.count 0, haltedMachine.num_steps) ∧
    haltedMachine.tape.count 1 + haltedMachine.tape.count 0 ≤ haltedMachine.tape.length :=
  eval_busy_bever_counts haltedMachine (by decide) (by decide)

end Touring

namespace Touring

/-- C9 counterexample: for the line `A 0 x B 1 X`, whose direction token
`X` is neither `L` nor `R`, construction aborts with the panic message
`couldn't parse direction 'X'` raised inside the instruction parsing
itself — a message that names the token but does not contain the
offending line content, contradicting the claim that every malformed
line is reported with the offending line content. -/
theorem bad_direction_message_omits_line :
    TuringMachine.new ["A 0 x B 1 X"] = .panic "couldn't parse direction 'X'" ∧
    strContains "couldn't parse direction 'X'" "A 0 x B 1 X" = false := by
  exact ⟨rfl, by decide⟩

/-- C9 (amended): during construction, empty lines are skipped; a
non-empty line with a whitespace-separated field count other than six, or
whose source or target symbol fails to parse as `u8`, aborts construction
with a fatal panic whose message contains the offending line content and
a reason, without processing any later line (the result does not depend
on `rest`); a line whose direction token is neither `L` nor `R` also
aborts construction fatally before any later line, but its panic message
carries only the direction token and reason — not the offending line
content. -/
theorem malformed_line_fatal (line : String) (rest : List String)
    (acc : List Instruction) (states : List String) :
    (line.toList.isEmpty = true →
      newGo (line :: rest) acc states = newGo rest acc states) ∧
    (line.toList.isEmpty = false → (splitWhitespace line).length ≠ 6 →
      newGo (line :: rest) acc states =
        .panic ("Can't read instruction from line '" ++ line ++ "': " ++
          ("Invalid number of elements (found " ++ toString (splitWhitespace line).length ++
            ", expected 6)"))) ∧
    (line.toList.isEmpty = false → (splitWhitespace line).length = 6 →
      parseU8 ((splitWhitespace line).getD 1 "") = none →
      newGo (line :: rest) acc states =
        .panic ("Can't read instruction from line '" ++ line ++ "': " ++
          "unable to parse source entry")) ∧
    (∀ v1, line.toList.isEmpty = false → (splitWhitespace line).length = 6 →
      parseU8 ((splitWhitespace line).getD 1 "") = some v1 →
      parseU8 ((splitWhitespace line).getD 4 "") = none →
      newGo (line :: rest) acc states =
        .panic ("Can't read instruction from line '" ++ line ++ "': " ++
          "unable to parse target entry")) ∧
    (∀ v1 v4, line.toList.isEmpty = false → (splitWhitespace line).length = 6 →
      parseU8 ((splitWhitespace line).getD 1 "") = some v1 →
      parseU8 ((splitWhitespace line).getD 4 "") = some v4 →
      (splitWhitespace line).getD 5 "" ≠ "L" → (splitWhitespace line).getD 5 "" ≠ "R" →
      newGo (line :: rest) acc states =
        .panic ("couldn't parse direction '" ++ (splitWhitespace line).getD 5 "" ++ "'")) := by
  refine ⟨?_, ?_, ?_, ?_, ?_⟩
  · intro hempty
    have htf : Instruction.tryFrom line states = .emptyLine states := by
      simp only [Instruction.tryFrom, hempty, if_true]
    conv_lhs => unfold newGo
    rw [htf]
  · intro hempty hlen
    unfold newGo
    simp only [Instruction.tryFrom, hempty, Bool.false_eq_true, if_false]
    rw [if_pos hlen]
  · intro hempty hlen hp1
    unfold newGo
    simp only [Instruction.tryFrom, hempty, Bool.false_eq_true, if_false, hlen, hp1]
    rw [if_neg (show ¬((6 : Nat) ≠ 6) from fun h => h rfl)]
  · intro v1 hempty hlen hp1 hp4
    unfold newGo
    simp only [Instruction.tryFrom, hempty, Bool.false_eq_true, if_false, hlen, hp1, hp4]
    rw [if_neg (show ¬((6 : Nat) ≠ 6) from fun h => h rfl)]
  · intro v1 v4 hempty hlen hp1 hp4 hL hR
    unfold newGo
    simp only [Instruction.tryFrom, hempty, Bool.false_eq_true, if_false, hlen, hp1, hp4,
      hL, hR]
    rw [if_neg (show ¬((6 : Nat) ≠ 6) from fun h => h rfl)]

theorem malformed_line_fatal_witness :
    (newGo ["", "A 0 x Halt 1 R"] [] [] = newGo ["A 0 x Halt 1 R"] [] []) ∧
    (newGo ["A 0 y"] [] [] =
      .panic ("Can't read instruction from line '" ++ "A 0 y" ++ "': " ++
        ("Invalid number of elements (found " ++ toString (splitWhitespace "A 0 y").length ++
          ", expected 6)"))) ∧
    (newGo ["A z x Halt 1 R"] [] [] =
      .panic ("Can't read instruction from line '" ++ "A z x Halt 1 R" ++ "': " ++
        "unable to parse source entry")) ∧
    (newGo ["A 0 x Halt z R"] [] [] =
      .panic ("Can't read instruction from line '" ++ "A 0 x Halt z R" ++ "': " ++
        "unable to parse target entry")) ∧
    (newGo ["A 0 x B 1 X"] [] [] =
      .panic ("couldn't parse direction '" ++ (splitWhitespace "A 0 x B 1 X").getD 5 "" ++ "'")) :=
  ⟨(malformed_line_fatal "" ["A 0 x Halt 1 R"] [] []).1 rfl,
   (malformed_line_fatal "A 0 y" [] [] []).2.1 rfl (by decide),
   (malformed_line_fatal "A z x Halt 1 R" [] [] []).2.2.1 rfl (by decide) rfl,
   (malformed_line_fatal "A 0 x Halt z R" [] [] []).2.2.2.1 0 rfl (by decide) rfl rfl,
   (malformed_line_fatal "A 0 x B 1 X" [] [] []).2.2.2.2 0 1 rfl (by decide) rfl rfl
     (by decide) (by decide)⟩

end Touring
